import Mathlib

/-!
Verification development for the event-management-system repository.

The repository contains two event-scraper pipelines:
* `attached_assets/abu_dhabi_events_fetcher_1762774208177.py` — the Abu Dhabi
  Media Office events fetcher (calendar-strategy and list-strategy extraction,
  URL deduplication, month-range aggregation, retrying page fetcher);
* `attached_assets/adnec_events_fetcher.py` — the ADNEC events fetcher
  (Selenium listing fetch, JSON-LD detail extraction, hall-location
  formatting, listing+detail aggregation).

The definitions below are shallow embeddings of the Python functions.  HTML
parsing (BeautifulSoup), regular-expression searching, JSON decoding, the
datetime library and the network are external libraries; their *outputs* are
modelled as explicit data (structures holding the anchors, text nodes and
parse results a page yields) or as function parameters, while every piece of
control flow and data manipulation written in the repository itself is
translated directly.
-/

namespace EventScrapers

/-! ### String utilities (models of Python `in`, `urljoin`, …) -/

/-- Model of the Python substring test `pat in s` (and of `re.search` for a
pattern that is a plain literal): `pat.data` occurs as a contiguous sublist
of `s.data`.  Implemented by scanning. -/
def containsSub (pat : List Char) : List Char → Bool
  | [] => pat.isEmpty
  | c :: rest => pat.isPrefixOf (c :: rest) || containsSub pat rest

/-- Embeds Python `pat in s` as `containsSubstr s pat`. -/
def containsSubstr (s pat : String) : Bool :=
  containsSub pat.data s.data

/-- Model of Python `str.startswith` (and of `String.startsWith`, which is
kept out of the development so that every definition evaluates by kernel
reduction). -/
def strStartsWith (s p : String) : Bool :=
  p.data.isPrefixOf s.data

/-- Model of Python `str.lower` for the ASCII strings compared here. -/
def strToLower (s : String) : String :=
  String.mk (s.data.map Char.toLower)

/-- The whitespace characters stripped by Python `str.strip()`. -/
def isPySpace (c : Char) : Bool :=
  c = ' ' || c = '\t' || c = '\n' || c = '\r' || c = '\x0b' || c = '\x0c'

/-- Model of Python `str.strip()`. -/
def strTrim (s : String) : String :=
  String.mk (((s.data.dropWhile isPySpace).reverse.dropWhile isPySpace).reverse)

/-- Model of Python `c in s` for a single character. -/
def strContainsChar (s : String) (c : Char) : Bool :=
  s.data.contains c

theorem string_eq_empty_of_data_eq_nil {s : String} (h : s.data = []) : s = "" := by
  cases s with
  | mk data => cases h; rfl

theorem containsSubstr_ne_empty {s pat : String} (h : containsSubstr s pat = true)
    (hp : pat ≠ "") : s ≠ "" := by
  intro hs
  subst hs
  simp only [containsSubstr] at h
  have : pat.data = [] := by
    simpa [containsSub, List.isEmpty_iff] using h
  exact hp (string_eq_empty_of_data_eq_nil this)

/-- Characters up to (excluding) the first occurrence of `c`. -/
def takeUntilChar (c : Char) : List Char → List Char
  | [] => []
  | x :: xs => if x = c then [] else x :: takeUntilChar c xs

/-- Scheme plus host part of a URL (`"https://h/p"` ↦ `"https://h"`).
Model of what `urllib.parse.urljoin` keeps when joining an absolute path. -/
def schemeHostOf (url : String) : String :=
  if strStartsWith url "http://" then
    "http://" ++ String.mk (takeUntilChar '/' (url.data.drop 7))
  else if strStartsWith url "https://" then
    "https://" ++ String.mk (takeUntilChar '/' (url.data.drop 8))
  else
    String.mk (takeUntilChar '/' url.data)

/-- Everything up to and including the last `'/'` of a URL; empty if the URL
has no slash.  Model of the directory part used for relative references. -/
def dirOf (url : String) : String :=
  String.mk ((url.data.reverse.dropWhile (fun c => c ≠ '/')).reverse)

/-- Model of `urllib.parse.urljoin` for the reference shapes the scrapers
produce: empty reference keeps the base, an absolute URL replaces it, an
absolute path is resolved against the base's host, anything else against the
base's directory. -/
def urljoin (base url : String) : String :=
  if url = "" then base
  else if strStartsWith url "http://" || strStartsWith url "https://" then url
  else if strStartsWith url "/" then schemeHostOf base ++ url
  else dirOf base ++ url

theorem string_append_ne_empty_right {a b : String} (hb : b ≠ "") : a ++ b ≠ "" := by
  intro h
  apply hb
  apply string_eq_empty_of_data_eq_nil
  have hd : (a ++ b).data = [] := by rw [h]
  rw [String.data_append] at hd
  exact (List.append_eq_nil.mp hd).2

theorem urljoin_ne_empty {base url : String} (h : url ≠ "") : urljoin base url ≠ "" := by
  unfold urljoin
  rw [if_neg h]
  split
  · exact h
  · split
    · exact string_append_ne_empty_right h
    · exact string_append_ne_empty_right h

/-! ### Abu Dhabi fetcher: data model

A parsed listing page (`BeautifulSoup(html_content, 'html.parser')`) is
modelled by the query results the extractors read from it:
* `Link` — an anchor tag: its `href` attribute (`link.get('href', '')`),
  its visible text (`link.get_text()`), and the text of its parent node
  (`link.find_parent().get_text()`, absent when the anchor has no parent);
* `CalContainer` — one node returned by
  `soup.find_all(['div', 'a'], class_=re.compile(r'event', re.I))`,
  carrying the anchors found inside it (the extractor itself applies the
  `href=re.compile(r'/abu-dhabi-events/')` filter);
* `ListItem` — one `div` inside the `calendar-events` container, carrying
  its anchors in document order and its `get_text()`;
* `ListContainer` — the `div.calendar-events` node:
  `items` is `find_all('div', class_=re.compile(r'event-item|item'))` and
  `allDivs` the fallback `find_all('div')`;
* `Soup` — the whole page. -/

structure Link where
  href : String
  text : String
  parentText : Option String
deriving DecidableEq

structure CalContainer where
  links : List Link
deriving DecidableEq

structure ListItem where
  links : List Link
  text : String
deriving DecidableEq

structure ListContainer where
  items : List ListItem
  allDivs : List ListItem
deriving DecidableEq

structure Soup where
  calContainers : List CalContainer
  listContainer : Option ListContainer
deriving DecidableEq

/-- The `Event` dataclass of the Abu Dhabi fetcher. -/
structure Event where
  title : String
  url : String
  start_date : String
  end_date : String := ""
  location : String := ""
  organizer : String := ""
  sector : String := ""
  description : String := ""
  view_event_url : String := ""
deriving DecidableEq

/-- The href filter `re.compile(r'/abu-dhabi-events/')` used with
`find_all`/`find` (matched by `re.search`, i.e. substring containment). -/
def hrefMatchesEvents (href : String) : Bool :=
  containsSubstr href "/abu-dhabi-events/"

/-- Embeds `AbuDhabiEventsFetcher.extract_events_from_calendar`.

The two `re.findall` searches over the parent text (dates pattern and
known-location pattern) are library calls; they are supplied as the
parameters `findDate` and `findLoc`, each returning the first match or `""`
(mirroring `matches[0] if matches else ""`). -/
def extract_events_from_calendar (findDate findLoc : String → String)
    (soup : Soup) (base_url : String) : List Event :=
  (soup.calContainers.map (fun container =>
    (container.links.filter (fun l => hrefMatchesEvents l.href)).filterMap (fun link =>
      let event_url := urljoin base_url link.href
      let title := strTrim link.text
      if title ≠ "" ∧ event_url ≠ "" ∧ strToLower title ∉ ["view event", "export", "عربي"] then
        let dates := match link.parentText with
          | some t => findDate t
          | none => ""
        let location := match link.parentText with
          | some t => findLoc t
          | none => ""
        some { title := title, url := event_url, start_date := dates,
               location := location, view_event_url := event_url }
      else none))).flatten

/-- Embeds `AbuDhabiEventsFetcher.extract_events_from_list`.

`findDate`/`findLoc` again stand for the `re.findall` date and location
searches over `item.get_text()`. -/
def extract_events_from_list (findDate findLoc : String → String)
    (soup : Soup) (base_url : String) : List Event :=
  match soup.listContainer with
  | none => []
  | some container =>
    let event_items := if container.items = [] then container.allDivs else container.items
    event_items.filterMap (fun item =>
      match item.links.find? (fun l => hrefMatchesEvents l.href) with
      | none => none
      | some event_link =>
        let title := strTrim event_link.text
        let event_url := urljoin base_url event_link.href
        if title = "" ∨ strToLower title ∈ ["view event", "export", "filter"] then none
        else
          let start_date := findDate item.text
          let location := findLoc item.text
          let view_link := item.links.find? (fun l =>
            containsSubstr (strToLower l.text) "view event")
          let view_event_url := match view_link with
            | some v => urljoin base_url v.href
            | none => event_url
          some { title := title, url := event_url, start_date := start_date,
                 location := location, view_event_url := view_event_url })

/-! ### Abu Dhabi fetcher: per-month fetch and URL deduplication -/

/-- The deduplication loop of `fetch_events_for_month` (`seen_urls` set,
first occurrence kept), with the seen-set made explicit. -/
def dedupAux : List Event → List String → List Event
  | [], _ => []
  | e :: rest, seen =>
    if e.url ∈ seen then dedupAux rest seen
    else e :: dedupAux rest (e.url :: seen)

def dedupByUrl (l : List Event) : List Event :=
  dedupAux l []

/-- Specification-side count of candidates that share a URL with an earlier
candidate (the `M` of the deduplication property). -/
def countDupsAux : List String → List String → Nat
  | [], _ => 0
  | u :: rest, earlier =>
    (if u ∈ earlier then 1 else 0) + countDupsAux rest (u :: earlier)

def countDups (l : List Event) : Nat :=
  countDupsAux (l.map Event.url) []

/-- Embeds `AbuDhabiEventsFetcher.get_month_url`. -/
def get_month_url (month year : Nat) : String :=
  "https://www.mediaoffice.abudhabi/en/abu-dhabi-events/?month=" ++ toString month
    ++ "&year=" ++ toString year

/-- Embeds `all_events = calendar_events + list_events` inside
`fetch_events_for_month`. -/
def monthRawCandidates (fd1 fl1 fd2 fl2 : String → String)
    (soup : Soup) (url : String) : List Event :=
  extract_events_from_calendar fd1 fl1 soup url
    ++ extract_events_from_list fd2 fl2 soup url

/-- Embeds `AbuDhabiEventsFetcher.fetch_events_for_month`.  `getPage` models
`self.fetch_page` composed with `BeautifulSoup` parsing: the page the
network yields for a URL, or `none` when all fetch attempts failed. -/
def fetch_events_for_month (getPage : String → Option Soup)
    (fd1 fl1 fd2 fl2 : String → String) (month year : Nat) : List Event :=
  match getPage (get_month_url month year) with
  | none => []
  | some soup =>
    dedupByUrl (monthRawCandidates fd1 fl1 fd2 fl2 soup (get_month_url month year))

/-! ### Deduplication lemmas -/

theorem dedupAux_mem_not_seen :
    ∀ {l : List Event} {seen : List String} {e : Event},
      e ∈ dedupAux l seen → e.url ∉ seen := by
  intro l
  induction l with
  | nil => intro seen e h; simp [dedupAux] at h
  | cons x rest ih =>
    intro seen e h
    by_cases hx : x.url ∈ seen
    · rw [dedupAux, if_pos hx] at h
      exact ih h
    · rw [dedupAux, if_neg hx] at h
      rcases List.mem_cons.mp h with he | he
      · subst he; exact hx
      · have := ih he
        intro hse
        exact this (List.mem_cons_of_mem _ hse)

theorem dedupAux_pairwise :
    ∀ (l : List Event) (seen : List String),
      List.Pairwise (fun a b => a.url ≠ b.url) (dedupAux l seen) := by
  intro l
  induction l with
  | nil => intro seen; simp [dedupAux]
  | cons x rest ih =>
    intro seen
    by_cases hx : x.url ∈ seen
    · rw [dedupAux, if_pos hx]; exact ih seen
    · rw [dedupAux, if_neg hx]
      refine List.pairwise_cons.mpr ⟨?_, ih _⟩
      intro e he heq
      have := dedupAux_mem_not_seen he
      exact this (by rw [← heq]; exact List.mem_cons_self _ _)

theorem dedupAux_length_add_countDups :
    ∀ (l : List Event) (seen earlier : List String),
      (∀ u, u ∈ seen ↔ u ∈ earlier) →
      (dedupAux l seen).length + countDupsAux (l.map Event.url) earlier = l.length := by
  intro l
  induction l with
  | nil => intro seen earlier _; simp [dedupAux, countDupsAux]
  | cons x rest ih =>
    intro seen earlier hiff
    by_cases hx : x.url ∈ seen
    · have hx' : x.url ∈ earlier := (hiff _).mp hx
      rw [dedupAux, if_pos hx]
      simp only [List.map_cons, countDupsAux, if_pos hx', List.length_cons]
      have hiff' : ∀ u, u ∈ seen ↔ u ∈ x.url :: earlier := by
        intro u
        constructor
        · intro hu; exact List.mem_cons_of_mem _ ((hiff u).mp hu)
        · intro hu
          rcases List.mem_cons.mp hu with h | h
          · subst h; exact hx
          · exact (hiff u).mpr h
      have := ih seen (x.url :: earlier) hiff'
      omega
    · have hx' : x.url ∉ earlier := fun h => hx ((hiff _).mpr h)
      rw [dedupAux, if_neg hx]
      simp only [List.map_cons, countDupsAux, if_neg hx', List.length_cons, List.length_cons]
      have hiff' : ∀ u, u ∈ x.url :: seen ↔ u ∈ x.url :: earlier := by
        intro u
        simp only [List.mem_cons]
        rw [hiff u]
      have := ih (x.url :: seen) (x.url :: earlier) hiff'
      omega

theorem dedupAux_find? :
    ∀ {l : List Event} {seen : List String} {e : Event},
      e ∈ dedupAux l seen → l.find? (fun x => x.url == e.url) = some e := by
  intro l
  induction l with
  | nil => intro seen e h; simp [dedupAux] at h
  | cons x rest ih =>
    intro seen e h
    by_cases hx : x.url ∈ seen
    · rw [dedupAux, if_pos hx] at h
      have hnot : e.url ∉ seen := dedupAux_mem_not_seen h
      have hne : x.url ≠ e.url := fun heq => hnot (heq ▸ hx)
      have hb : (x.url == e.url) = false := by simpa using hne
      rw [List.find?_cons, hb]
      exact ih h
    · rw [dedupAux, if_neg hx] at h
      rcases List.mem_cons.mp h with he | he
      · subst he
        have hb : (e.url == e.url) = true := by simp
        rw [List.find?_cons, hb]
      · have hnot : e.url ∉ x.url :: seen := dedupAux_mem_not_seen he
        have hne : x.url ≠ e.url := fun heq =>
          hnot (heq ▸ List.mem_cons_self _ _)
        have hb : (x.url == e.url) = false := by simpa using hne
        rw [List.find?_cons, hb]
        exact ih he

theorem dedupAux_covers :
    ∀ (l : List Event) (seen : List String) (x : Event),
      x ∈ l → x.url ∈ seen ∨ ∃ e ∈ dedupAux l seen, e.url = x.url := by
  intro l
  induction l with
  | nil => intro seen x h; simp at h
  | cons y rest ih =>
    intro seen x h
    by_cases hy : y.url ∈ seen
    · rw [dedupAux, if_pos hy]
      rcases List.mem_cons.mp h with hx | hx
      · subst hx; exact Or.inl hy
      · exact ih seen x hx
    · rw [dedupAux, if_neg hy]
      rcases List.mem_cons.mp h with hx | hx
      · subst hx
        exact Or.inr ⟨x, List.mem_cons_self _ _, rfl⟩
      · rcases ih (y.url :: seen) x hx with hs | ⟨e, he, heq⟩
        · rcases List.mem_cons.mp hs with h' | h'
          · exact Or.inr ⟨y, List.mem_cons_self _ _, h'.symm⟩
          · exact Or.inl h'
        · exact Or.inr ⟨e, List.mem_cons_of_mem _ he, heq⟩

/-! ### Extractor membership lemmas -/

theorem extract_calendar_mem {fd fl : String → String} {soup : Soup} {base_url : String}
    {e : Event} (he : e ∈ extract_events_from_calendar fd fl soup base_url) :
    e.title ≠ "" ∧ e.url ≠ ""
      ∧ strToLower e.title ∉ (["view event", "export", "عربي"] : List String) := by
  simp only [extract_events_from_calendar, List.mem_flatten, List.mem_map] at he
  obtain ⟨l, ⟨c, hc, rfl⟩, he⟩ := he
  rw [List.mem_filterMap] at he
  obtain ⟨link, hlink, hf⟩ := he
  split at hf
  · next hcond =>
    cases hf
    exact ⟨hcond.1, hcond.2.1, hcond.2.2⟩
  · simp at hf

theorem extract_list_mem {fd fl : String → String} {soup : Soup} {base_url : String}
    {e : Event} (he : e ∈ extract_events_from_list fd fl soup base_url) :
    e.title ≠ "" ∧ e.url ≠ ""
      ∧ strToLower e.title ∉ (["view event", "export", "filter"] : List String) := by
  unfold extract_events_from_list at he
  cases hlc : soup.listContainer with
  | none => rw [hlc] at he; simp at he
  | some container =>
    rw [hlc] at he
    rw [List.mem_filterMap] at he
    obtain ⟨item, hitem, hf⟩ := he
    split at hf
    · simp at hf
    · rename_i event_link heq
      have hpred : hrefMatchesEvents event_link.href = true := by
        simpa using List.find?_some heq
      have hhref : event_link.href ≠ "" :=
        containsSubstr_ne_empty hpred (by decide)
      dsimp only at hf
      split at hf
      · simp at hf
      · rename_i hcond
        rw [not_or] at hcond
        cases hf
        exact ⟨hcond.1, urljoin_ne_empty hhref, hcond.2⟩

/-! ### Claim theorems: C1, C2 -/

/-- C1: for every single-month fetch (`fetch_events_for_month`) whose page
fetch succeeds, the result is the URL-deduplicated concatenation of the
calendar-strategy and list-strategy outputs: no two returned records share a
`url`; if the strategies produce `N` raw candidates of which `M` share a URL
with an earlier candidate, exactly `N − M` records are returned; each
returned record is the first-occurring candidate with its URL; and every
candidate URL is represented. -/
theorem c1_month_dedup (getPage : String → Option Soup)
    (fd1 fl1 fd2 fl2 : String → String) (month year : Nat) (soup : Soup)
    (h : getPage (get_month_url month year) = some soup) :
    fetch_events_for_month getPage fd1 fl1 fd2 fl2 month year
        = dedupByUrl (monthRawCandidates fd1 fl1 fd2 fl2 soup (get_month_url month year))
    ∧ List.Pairwise (fun a b => a.url ≠ b.url)
        (fetch_events_for_month getPage fd1 fl1 fd2 fl2 month year)
    ∧ (fetch_events_for_month getPage fd1 fl1 fd2 fl2 month year).length
        = (monthRawCandidates fd1 fl1 fd2 fl2 soup (get_month_url month year)).length
          - countDups (monthRawCandidates fd1 fl1 fd2 fl2 soup (get_month_url month year))
    ∧ (∀ e ∈ fetch_events_for_month getPage fd1 fl1 fd2 fl2 month year,
        (monthRawCandidates fd1 fl1 fd2 fl2 soup (get_month_url month year)).find?
            (fun x => x.url == e.url) = some e)
    ∧ (∀ x ∈ monthRawCandidates fd1 fl1 fd2 fl2 soup (get_month_url month year),
        ∃ e ∈ fetch_events_for_month getPage fd1 fl1 fd2 fl2 month year,
          e.url = x.url) := by
  have hm : fetch_events_for_month getPage fd1 fl1 fd2 fl2 month year
      = dedupByUrl (monthRawCandidates fd1 fl1 fd2 fl2 soup (get_month_url month year)) := by
    unfold fetch_events_for_month
    rw [h]
  refine ⟨hm, ?_, ?_, ?_, ?_⟩
  · rw [hm]; exact dedupAux_pairwise _ _
  · rw [hm]
    have := dedupAux_length_add_countDups
      (monthRawCandidates fd1 fl1 fd2 fl2 soup (get_month_url month year)) [] []
      (fun u => Iff.rfl)
    unfold dedupByUrl countDups
    omega
  · intro e he
    rw [hm] at he
    exact dedupAux_find? he
  · intro x hx
    rw [hm]
    rcases dedupAux_covers _ [] x hx with hs | hgood
    · simp at hs
    · exact hgood

def oracleEmpty : String → String := fun _ => ""

def c1Soup : Soup :=
  { calContainers := [⟨[⟨"https://e/abu-dhabi-events/a", "Event A", none⟩,
                        ⟨"https://e/abu-dhabi-events/b", "Event B", none⟩]⟩],
    listContainer := some ⟨[⟨[⟨"https://e/abu-dhabi-events/a", "Event A2", none⟩], "x"⟩], []⟩ }

def c1GetPage : String → Option Soup := fun _ => some c1Soup

theorem c1_month_dedup_witness :
    (fetch_events_for_month c1GetPage oracleEmpty oracleEmpty oracleEmpty oracleEmpty 1 2025).length
        = (monthRawCandidates oracleEmpty oracleEmpty oracleEmpty oracleEmpty c1Soup
            (get_month_url 1 2025)).length
          - countDups (monthRawCandidates oracleEmpty oracleEmpty oracleEmpty oracleEmpty c1Soup
            (get_month_url 1 2025))
    ∧ (monthRawCandidates oracleEmpty oracleEmpty oracleEmpty oracleEmpty c1Soup
        (get_month_url 1 2025)).length = 3
    ∧ countDups (monthRawCandidates oracleEmpty oracleEmpty oracleEmpty oracleEmpty c1Soup
        (get_month_url 1 2025)) = 1
    ∧ (fetch_events_for_month c1GetPage oracleEmpty oracleEmpty oracleEmpty oracleEmpty
        1 2025).map Event.title = ["Event A", "Event B"] :=
  ⟨(c1_month_dedup c1GetPage oracleEmpty oracleEmpty oracleEmpty oracleEmpty 1 2025 c1Soup
      rfl).2.2.1, by decide, by decide, by decide⟩

/-- C2: every record emitted by the calendar-strategy or the list-strategy
has a non-empty title and a non-empty URL; candidates without them never
reach the output. -/
theorem c2_required_fields (fd1 fl1 fd2 fl2 : String → String)
    (soup : Soup) (base_url : String) :
    ∀ e ∈ monthRawCandidates fd1 fl1 fd2 fl2 soup base_url,
      e.title ≠ "" ∧ e.url ≠ "" := by
  intro e he
  rcases List.mem_append.mp he with hc | hl
  · have := extract_calendar_mem hc
    exact ⟨this.1, this.2.1⟩
  · have := extract_list_mem hl
    exact ⟨this.1, this.2.1⟩

/-- A concrete record produced by the calendar strategy on `c1Soup`. -/
def c2WitnessEvent : Event :=
  { title := "Event A", url := "https://e/abu-dhabi-events/a", start_date := "",
    view_event_url := "https://e/abu-dhabi-events/a" }

theorem c2_required_fields_witness :
    c2WitnessEvent.title ≠ "" ∧ c2WitnessEvent.url ≠ "" :=
  c2_required_fields oracleEmpty oracleEmpty oracleEmpty oracleEmpty c1Soup
    "https://e/x" c2WitnessEvent (by decide)

/-! ### Claim C7: boilerplate rejection -/

/-- A listing page whose single list item carries an anchor whose visible
text is the known non-English label. -/
def c7Soup : Soup :=
  { calContainers := [],
    listContainer := some ⟨[⟨[⟨"/abu-dhabi-events/x", "عربي", none⟩], "t"⟩], []⟩ }

/-- C7 (counterexample to the claim as stated): the list-strategy filter
rejects only `['view event', 'export', 'filter']`, so a link whose visible
text is the non-English label `عربي` (rejected by the calendar strategy
only) does appear as a record title in the combined output. -/
theorem c7_claim_counterexample :
    (monthRawCandidates oracleEmpty oracleEmpty oracleEmpty oracleEmpty c7Soup
        "https://www.mediaoffice.abudhabi/en/abu-dhabi-events/?month=1&year=2025").map
      Event.title = ["عربي"] := by decide

/-- C7 (amended): a link whose visible text case-insensitively matches
`"view event"` or `"export"` — the boilerplate strings rejected by *both*
strategies — never appears as a record title in the combined output.  (The
non-English label is rejected only by the calendar strategy, `"filter"`
only by the list strategy.) -/
theorem c7_boilerplate_rejection (fd1 fl1 fd2 fl2 : String → String)
    (soup : Soup) (base_url : String) :
    ∀ e ∈ monthRawCandidates fd1 fl1 fd2 fl2 soup base_url,
      strToLower e.title ≠ "view event" ∧ strToLower e.title ≠ "export" := by
  intro e he
  rcases List.mem_append.mp he with hc | hl
  · have h := (extract_calendar_mem hc).2.2
    simp only [List.mem_cons, List.not_mem_nil, not_or] at h
    exact ⟨h.1, h.2.1⟩
  · have h := (extract_list_mem hl).2.2
    simp only [List.mem_cons, List.not_mem_nil, not_or] at h
    exact ⟨h.1, h.2.1⟩

theorem c7_boilerplate_rejection_witness :
    strToLower c2WitnessEvent.title ≠ "view event"
    ∧ strToLower c2WitnessEvent.title ≠ "export" :=
  c7_boilerplate_rejection oracleEmpty oracleEmpty oracleEmpty oracleEmpty c1Soup
    "https://e/x" c2WitnessEvent (by decide)

/-! ### Claim C3: the retrying page fetcher

`fetch_page` of both fetchers runs the same loop:
`for attempt in range(retries)`, try the request (outcome per attempt is the
oracle `tryFetch`); on success return the text; on failure sleep
`2 ** attempt` unless this was the final attempt, in which case return
`None`.  The trace records the result, the number of attempts performed and
the sequence of sleeps. -/

structure FetchTrace where
  result : Option String
  attempts : Nat
  waits : List Nat
deriving DecidableEq

/-- The loop body of `fetch_page`, with `remaining = retries - attempt`
iterations left and `attempt` the index of the next attempt. -/
def fetchGo (tryFetch : Nat → Option String) : Nat → Nat → FetchTrace
  | 0, attempt => ⟨none, attempt, []⟩
  | 1, attempt =>
    match tryFetch attempt with
    | some s => ⟨some s, attempt + 1, []⟩
    | none => ⟨none, attempt + 1, []⟩
  | r + 2, attempt =>
    match tryFetch attempt with
    | some s => ⟨some s, attempt + 1, []⟩
    | none =>
      let t := fetchGo tryFetch (r + 1) (attempt + 1)
      ⟨t.result, t.attempts, 2 ^ attempt :: t.waits⟩

/-- Embeds `fetch_page(url, retries)`: run the attempts starting at attempt 0. -/
def fetch_page (tryFetch : Nat → Option String) (retries : Nat) : FetchTrace :=
  fetchGo tryFetch retries 0

theorem fetchGo_attempts_bounds (tryFetch : Nat → Option String) :
    ∀ (remaining attempt : Nat),
      attempt ≤ (fetchGo tryFetch remaining attempt).attempts
      ∧ (fetchGo tryFetch remaining attempt).attempts ≤ attempt + remaining
      ∧ (1 ≤ remaining → attempt + 1 ≤ (fetchGo tryFetch remaining attempt).attempts) := by
  intro remaining
  induction remaining with
  | zero => intro attempt; simp [fetchGo]
  | succ rem ih =>
    intro attempt
    cases rem with
    | zero =>
      cases hfa : tryFetch attempt with
      | some s => simp [fetchGo, hfa]
      | none => simp [fetchGo, hfa]
    | succ r =>
      cases hfa : tryFetch attempt with
      | some s => simp [fetchGo, hfa]
      | none =>
        have h := ih (attempt + 1)
        simp only [fetchGo, hfa]
        refine ⟨by omega, by omega, fun _ => by omega⟩

theorem fetchGo_waits (tryFetch : Nat → Option String) :
    ∀ (remaining attempt : Nat),
      (fetchGo tryFetch remaining attempt).waits
        = (List.range ((fetchGo tryFetch remaining attempt).attempts - 1 - attempt)).map
            (fun i => 2 ^ (attempt + i)) := by
  intro remaining
  induction remaining with
  | zero => intro attempt; simp [fetchGo]
  | succ rem ih =>
    intro attempt
    cases rem with
    | zero =>
      cases hfa : tryFetch attempt with
      | some s => simp [fetchGo, hfa]
      | none => simp [fetchGo, hfa]
    | succ r =>
      cases hfa : tryFetch attempt with
      | some s => simp [fetchGo, hfa]
      | none =>
        have hbounds := fetchGo_attempts_bounds tryFetch (r + 1) (attempt + 1)
        have hge : attempt + 2 ≤ (fetchGo tryFetch (r + 1) (attempt + 1)).attempts := by
          have := hbounds.2.2 (by omega)
          omega
        simp only [fetchGo, hfa]
        rw [ih (attempt + 1)]
        have hk : (fetchGo tryFetch (r + 1) (attempt + 1)).attempts - 1 - attempt
            = ((fetchGo tryFetch (r + 1) (attempt + 1)).attempts - 1 - (attempt + 1)) + 1 := by
          omega
        rw [hk, List.range_succ_eq_map, List.map_cons, List.map_map]
        refine congrArg₂ _ (by rw [Nat.add_zero]) ?_
        apply List.map_congr_left
        intro i _
        show 2 ^ (attempt + 1 + i) = 2 ^ (attempt + (i + 1))
        rw [Nat.add_comm i 1, Nat.add_assoc]

theorem fetchGo_all_fail (tryFetch : Nat → Option String) :
    ∀ (remaining attempt : Nat),
      (∀ i, attempt ≤ i → i < attempt + remaining → tryFetch i = none) →
      (fetchGo tryFetch remaining attempt).result = none
      ∧ (fetchGo tryFetch remaining attempt).attempts = attempt + remaining := by
  intro remaining
  induction remaining with
  | zero => intro attempt _; simp [fetchGo]
  | succ rem ih =>
    intro attempt hall
    have hfa : tryFetch attempt = none := hall attempt (Nat.le_refl _) (by omega)
    cases rem with
    | zero => simp [fetchGo, hfa]
    | succ r =>
      have h := ih (attempt + 1) (fun i h1 h2 => hall i (by omega) (by omega))
      simp only [fetchGo, hfa]
      exact ⟨h.1, by omega⟩


/-- C3: for every per-attempt outcome oracle and retry budget `r`, the page
fetcher performs at most `r` attempts; the waits performed are exactly
`2^0, 2^1, …` — one after each failed attempt except the final attempt
performed (so there are `attempts − 1` waits, none after the final
attempt), strictly increasing; and when all `r` attempts fail the result is
absence (`none`), not an exception. -/
theorem c3_fetch_retry_backoff (tryFetch : Nat → Option String) (retries : Nat) :
    (fetch_page tryFetch retries).attempts ≤ retries
    ∧ (fetch_page tryFetch retries).waits
        = (List.range ((fetch_page tryFetch retries).attempts - 1)).map (fun i => 2 ^ i)
    ∧ List.Pairwise (· < ·) (fetch_page tryFetch retries).waits
    ∧ ((∀ i, i < retries → tryFetch i = none) →
        (fetch_page tryFetch retries).result = none
        ∧ (fetch_page tryFetch retries).attempts = retries) := by
  have hb := fetchGo_attempts_bounds tryFetch retries 0
  have hw := fetchGo_waits tryFetch retries 0
  have hwaits : (fetch_page tryFetch retries).waits
      = (List.range ((fetch_page tryFetch retries).attempts - 1)).map (fun i => 2 ^ i) := by
    unfold fetch_page
    rw [hw]
    have : (fetchGo tryFetch retries 0).attempts - 1 - 0
        = (fetchGo tryFetch retries 0).attempts - 1 := by omega
    rw [this]
    apply List.map_congr_left
    intro i _
    rw [Nat.zero_add]
  refine ⟨by unfold fetch_page; omega, hwaits, ?_, ?_⟩
  · rw [hwaits]
    have hpw : List.Pairwise (· < ·)
        (List.range ((fetch_page tryFetch retries).attempts - 1)) :=
      List.pairwise_lt_range _
    exact hpw.map _ (fun a b hab => Nat.pow_lt_pow_right (by omega) hab)
  · intro hall
    have := fetchGo_all_fail tryFetch retries 0 (fun i _ h2 => hall i (by omega))
    unfold fetch_page
    exact ⟨this.1, by omega⟩

theorem c3_fetch_retry_backoff_witness :
    (fetch_page (fun _ => none) 3).result = none
    ∧ (fetch_page (fun _ => none) 3).attempts = 3
    ∧ (fetch_page (fun _ => none) 3).waits = [1, 2] :=
  ⟨((c3_fetch_retry_backoff (fun _ => none) 3).2.2.2 (fun i _ => rfl)).1,
   ((c3_fetch_retry_backoff (fun _ => none) 3).2.2.2 (fun i _ => rfl)).2,
   by decide⟩

/-! ### Claims C4 and C10: the month-range aggregator

`fetch_events_for_date_range` loops while
`(current_year < end_year) or (current_year == end_year and
current_month <= end_month)`, fetching each month, extending the result,
stepping to the next month (wrapping 12 → 1) and sleeping one time unit.
The loop is embedded with an explicit fuel argument (chosen large enough to
never be exhausted on the inputs the claims quantify over), and its observable
behaviour is recorded as a trace of `invoke`/`sleep` actions. -/

inductive RangeAction where
  | invoke (month year : Nat)
  | sleep (n : Nat)
deriving DecidableEq

/-- Embeds `current_month += 1; if current_month > 12: current_month = 1;
current_year += 1`. -/
def nextMonth (m y : Nat) : Nat × Nat :=
  if 12 < m + 1 then (1, y + 1) else (m + 1, y)

/-- Linear index of a month (months `1..12`). -/
def monthIdx (month year : Nat) : Nat := 12 * year + month

def monthOfIdx (i : Nat) : Nat × Nat := ((i - 1) % 12 + 1, (i - 1) / 12)

/-- The inclusive calendar-ordered list of months from `(sm, sy)` to
`(em, ey)`. -/
def monthSeq (sm sy em ey : Nat) : List (Nat × Nat) :=
  (List.range (monthIdx em ey + 1 - monthIdx sm sy)).map
    (fun i => monthOfIdx (monthIdx sm sy + i))

def rangeLoop (fetchMonth : Nat → Nat → List Event) :
    Nat → Nat → Nat → Nat → Nat → List Event × List RangeAction
  | 0, _, _, _, _ => ([], [])
  | fuel + 1, m, y, em, ey =>
    if y < ey ∨ (y = ey ∧ m ≤ em) then
      let rest := rangeLoop fetchMonth fuel (nextMonth m y).1 (nextMonth m y).2 em ey
      (fetchMonth m y ++ rest.1,
       RangeAction.invoke m y :: RangeAction.sleep 1 :: rest.2)
    else ([], [])

/-- Embeds `AbuDhabiEventsFetcher.fetch_events_for_date_range` (events plus the
invoke/sleep trace).  The fuel `12 * ey + em + 1` exceeds the number of loop
iterations for every start month ≥ 1. -/
def fetch_events_for_date_range (getPage : String → Option Soup)
    (fd1 fl1 fd2 fl2 : String → String) (sm sy em ey : Nat) :
    List Event × List RangeAction :=
  rangeLoop (fetch_events_for_month getPage fd1 fl1 fd2 fl2)
    (12 * ey + em + 1) sm sy em ey

theorem monthIdx_le_iff {m y em ey : Nat} (hm1 : 1 ≤ m) (hm2 : m ≤ 12)
    (he1 : 1 ≤ em) (he2 : em ≤ 12) :
    (y < ey ∨ (y = ey ∧ m ≤ em)) ↔ monthIdx m y ≤ monthIdx em ey := by
  unfold monthIdx
  omega

theorem monthOfIdx_monthIdx {m y : Nat} (h1 : 1 ≤ m) (h2 : m ≤ 12) :
    monthOfIdx (monthIdx m y) = (m, y) := by
  unfold monthOfIdx monthIdx
  rw [Prod.mk.injEq]
  omega

theorem nextMonth_idx {m y : Nat} (h2 : m ≤ 12) :
    monthIdx (nextMonth m y).1 (nextMonth m y).2 = monthIdx m y + 1 := by
  unfold nextMonth monthIdx
  split
  · simp
    omega
  · simp
    omega

theorem nextMonth_bounds (m y : Nat) (h1 : 1 ≤ m) (h2 : m ≤ 12) :
    1 ≤ (nextMonth m y).1 ∧ (nextMonth m y).1 ≤ 12 := by
  unfold nextMonth
  split
  · simp
  · simp
    omega

theorem monthSeq_eq_nil {sm sy em ey : Nat} (h : monthIdx em ey < monthIdx sm sy) :
    monthSeq sm sy em ey = [] := by
  unfold monthSeq
  have : monthIdx em ey + 1 - monthIdx sm sy = 0 := by omega
  rw [this]
  simp

theorem monthSeq_cons {sm sy em ey : Nat} (h1 : 1 ≤ sm) (h2 : sm ≤ 12)
    (hle : monthIdx sm sy ≤ monthIdx em ey) :
    monthSeq sm sy em ey
      = (sm, sy) :: monthSeq (nextMonth sm sy).1 (nextMonth sm sy).2 em ey := by
  unfold monthSeq
  have hc : monthIdx em ey + 1 - monthIdx sm sy
      = (monthIdx em ey + 1 - (monthIdx sm sy + 1)) + 1 := by omega
  rw [hc, List.range_succ_eq_map, List.map_cons, List.map_map, Nat.add_zero,
    monthOfIdx_monthIdx h1 h2, nextMonth_idx h2]
  refine congrArg _ ?_
  apply List.map_congr_left
  intro i _
  show monthOfIdx (monthIdx sm sy + (i + 1)) = monthOfIdx (monthIdx sm sy + 1 + i)
  rw [Nat.add_comm i 1, Nat.add_assoc]

theorem rangeLoop_eq (F : Nat → Nat → List Event) :
    ∀ (fuel m y em ey : Nat), 1 ≤ m → m ≤ 12 → 1 ≤ em → em ≤ 12 →
      monthIdx em ey + 1 - monthIdx m y ≤ fuel →
      rangeLoop F fuel m y em ey
        = (((monthSeq m y em ey).map (fun p => F p.1 p.2)).flatten,
           ((monthSeq m y em ey).map
             (fun p => [RangeAction.invoke p.1 p.2, RangeAction.sleep 1])).flatten) := by
  intro fuel
  induction fuel with
  | zero =>
    intro m y em ey h1 h2 h3 h4 hf
    rw [monthSeq_eq_nil (by omega)]
    simp [rangeLoop]
  | succ fuel ih =>
    intro m y em ey h1 h2 h3 h4 hf
    by_cases hcond : y < ey ∨ (y = ey ∧ m ≤ em)
    · have hle : monthIdx m y ≤ monthIdx em ey :=
        (monthIdx_le_iff h1 h2 h3 h4).mp hcond
      have hnb := nextMonth_bounds m y h1 h2
      have hni := nextMonth_idx (y := y) h2
      have ihh := ih (nextMonth m y).1 (nextMonth m y).2 em ey hnb.1 hnb.2 h3 h4
        (by omega)
      rw [monthSeq_cons h1 h2 hle]
      simp only [rangeLoop, if_pos hcond, ihh, List.map_cons, List.flatten_cons]
      rfl
    · have hlt : monthIdx em ey < monthIdx m y := by
        by_contra hco
        exact hcond ((monthIdx_le_iff h1 h2 h3 h4).mpr (by omega))
      rw [monthSeq_eq_nil hlt]
      simp [rangeLoop, if_neg hcond]

/-- C4: in period mode with a valid inclusive range (months in `1..12`,
start not after end), the aggregator's action trace is exactly one
`invoke month year` per month of the range in calendar order, each followed
by a `sleep 1`, and the events are the per-month results appended in that
same order. -/
theorem c4_period_iteration (getPage : String → Option Soup)
    (fd1 fl1 fd2 fl2 : String → String) (sm sy em ey : Nat)
    (h1 : 1 ≤ sm) (h2 : sm ≤ 12) (h3 : 1 ≤ em) (h4 : em ≤ 12)
    (h5 : monthIdx sm sy ≤ monthIdx em ey) :
    (fetch_events_for_date_range getPage fd1 fl1 fd2 fl2 sm sy em ey).2
        = ((monthSeq sm sy em ey).map
            (fun p => [RangeAction.invoke p.1 p.2, RangeAction.sleep 1])).flatten
    ∧ (fetch_events_for_date_range getPage fd1 fl1 fd2 fl2 sm sy em ey).1
        = ((monthSeq sm sy em ey).map
            (fun p => fetch_events_for_month getPage fd1 fl1 fd2 fl2 p.1 p.2)).flatten := by
  have h := rangeLoop_eq (fetch_events_for_month getPage fd1 fl1 fd2 fl2)
    (12 * ey + em + 1) sm sy em ey h1 h2 h3 h4 (by unfold monthIdx at h5 ⊢; omega)
  unfold fetch_events_for_date_range
  rw [h]
  exact ⟨rfl, rfl⟩

theorem c4_period_iteration_witness :
    (fetch_events_for_date_range (fun _ => none) oracleEmpty oracleEmpty oracleEmpty
        oracleEmpty 1 2025 3 2025).2
      = ((monthSeq 1 2025 3 2025).map
          (fun p => [RangeAction.invoke p.1 p.2, RangeAction.sleep 1])).flatten
    ∧ ((monthSeq 1 2025 3 2025).map
          (fun p => [RangeAction.invoke p.1 p.2, RangeAction.sleep 1])).flatten
      = [RangeAction.invoke 1 2025, RangeAction.sleep 1,
         RangeAction.invoke 2 2025, RangeAction.sleep 1,
         RangeAction.invoke 3 2025, RangeAction.sleep 1] :=
  ⟨(c4_period_iteration (fun _ => none) oracleEmpty oracleEmpty oracleEmpty oracleEmpty
      1 2025 3 2025 (by decide) (by decide) (by decide) (by decide) (by decide)).1,
   by decide⟩

/-- C10: in period mode with a valid inclusive range, the range aggregator's
event list is exactly the in-order concatenation of the per-month outputs of
`fetch_events_for_month`, with no deduplication across months: a URL whose
record appears in the pages of two different months of the range appears at
least twice in the range result. -/
theorem c10_range_concat (getPage : String → Option Soup)
    (fd1 fl1 fd2 fl2 : String → String) (sm sy em ey : Nat)
    (h1 : 1 ≤ sm) (h2 : sm ≤ 12) (h3 : 1 ≤ em) (h4 : em ≤ 12)
    (h5 : monthIdx sm sy ≤ monthIdx em ey) :
    (fetch_events_for_date_range getPage fd1 fl1 fd2 fl2 sm sy em ey).1
        = ((monthSeq sm sy em ey).map
            (fun p => fetch_events_for_month getPage fd1 fl1 fd2 fl2 p.1 p.2)).flatten
    ∧ ∀ (u : String) (p1 p2 : Nat × Nat),
        p1 ∈ monthSeq sm sy em ey → p2 ∈ monthSeq sm sy em ey → p1 ≠ p2 →
        (∃ e ∈ fetch_events_for_month getPage fd1 fl1 fd2 fl2 p1.1 p1.2, e.url = u) →
        (∃ e ∈ fetch_events_for_month getPage fd1 fl1 fd2 fl2 p2.1 p2.2, e.url = u) →
        2 ≤ (fetch_events_for_date_range getPage fd1 fl1 fd2 fl2 sm sy em ey).1.countP
              (fun e => e.url == u) := by
  have h := rangeLoop_eq (fetch_events_for_month getPage fd1 fl1 fd2 fl2)
    (12 * ey + em + 1) sm sy em ey h1 h2 h3 h4 (by unfold monthIdx at h5 ⊢; omega)
  have hconcat : (fetch_events_for_date_range getPage fd1 fl1 fd2 fl2 sm sy em ey).1
      = ((monthSeq sm sy em ey).map
          (fun p => fetch_events_for_month getPage fd1 fl1 fd2 fl2 p.1 p.2)).flatten := by
    unfold fetch_events_for_date_range
    rw [h]
  refine ⟨hconcat, ?_⟩
  intro u p1 p2 hp1 hp2 hne hex1 hex2
  obtain ⟨e1, he1, hu1⟩ := hex1
  obtain ⟨e2, he2, hu2⟩ := hex2
  rw [hconcat]
  obtain ⟨s, t, hst⟩ := List.append_of_mem hp1
  have hp2' : p2 ∈ s ∨ p2 ∈ t := by
    rw [hst] at hp2
    rcases List.mem_append.mp hp2 with hmem | hmem
    · exact Or.inl hmem
    · rcases List.mem_cons.mp hmem with hmem | hmem
      · exact (hne hmem.symm).elim
      · exact Or.inr hmem
  rw [hst, List.map_append, List.map_cons, List.flatten_append, List.flatten_cons,
    List.countP_append, List.countP_append]
  have hc1 : 0 < (fetch_events_for_month getPage fd1 fl1 fd2 fl2 p1.1 p1.2).countP
      (fun e => e.url == u) :=
    List.countP_pos_iff.mpr ⟨e1, he1, by simp [hu1]⟩
  rcases hp2' with hmem | hmem
  · have hc2 : 0 < ((s.map
        (fun p => fetch_events_for_month getPage fd1 fl1 fd2 fl2 p.1 p.2)).flatten).countP
        (fun e => e.url == u) := by
      refine List.countP_pos_iff.mpr ⟨e2, ?_, by simp [hu2]⟩
      exact List.mem_flatten.mpr
        ⟨fetch_events_for_month getPage fd1 fl1 fd2 fl2 p2.1 p2.2,
         List.mem_map_of_mem _ hmem, he2⟩
    omega
  · have hc2 : 0 < ((t.map
        (fun p => fetch_events_for_month getPage fd1 fl1 fd2 fl2 p.1 p.2)).flatten).countP
        (fun e => e.url == u) := by
      refine List.countP_pos_iff.mpr ⟨e2, ?_, by simp [hu2]⟩
      exact List.mem_flatten.mpr
        ⟨fetch_events_for_month getPage fd1 fl1 fd2 fl2 p2.1 p2.2,
         List.mem_map_of_mem _ hmem, he2⟩
    omega

theorem c10_range_concat_witness :
    2 ≤ ((fetch_events_for_date_range c1GetPage oracleEmpty oracleEmpty oracleEmpty
          oracleEmpty 1 2025 2 2025).1.countP
          (fun e => e.url == "https://e/abu-dhabi-events/a")) :=
  (c10_range_concat c1GetPage oracleEmpty oracleEmpty oracleEmpty oracleEmpty
      1 2025 2 2025 (by decide) (by decide) (by decide) (by decide) (by decide)).2
    "https://e/abu-dhabi-events/a" (1, 2025) (2, 2025)
    (by decide) (by decide) (by decide) (by decide) (by decide)

/-! ### ADNEC fetcher: data model

A fetched detail page is modelled by the two query results
`extract_event_details` reads from it:
* `ScriptTag` — one `script[type="application/ld+json"]` element:
  `str` is `script.string` (absent when the tag has no single text child)
  and `parsed` records what `json.loads(script.string)` would yield:
  `err` for a `JSONDecodeError`, `nonDict` for a JSON value that is not an
  object (on which `data.get('@type')` raises `AttributeError`), and
  `dict d` for an object carrying the fields the code reads;
* `locText` — the `container.get_text()` of the div/section enclosing a
  text node that contains `'location:'` (lower-cased) or the Arabic label;
  `none` when `soup.find(string=...)` finds nothing or the parents are
  missing.

Python exceptions are modelled with `Except PyErr`. -/

inductive PyErr where
  | attributeError
  | driverError
deriving DecidableEq

instance {ε α : Type} [DecidableEq ε] [DecidableEq α] :
    DecidableEq (Except ε α) := fun x y =>
  match x, y with
  | Except.error a, Except.error b =>
    if h : a = b then isTrue (by rw [h])
    else isFalse (by intro hc; cases hc; exact h rfl)
  | Except.error _, Except.ok _ => isFalse (by intro hc; cases hc)
  | Except.ok _, Except.error _ => isFalse (by intro hc; cases hc)
  | Except.ok a, Except.ok b =>
    if h : a = b then isTrue (by rw [h])
    else isFalse (by intro hc; cases hc; exact h rfl)

structure OrgData where
  name : String
  url : String
deriving DecidableEq

/-- The JSON-LD `image` field: a single string or a list of strings. -/
inductive ImageVal where
  | str (s : String)
  | list (l : List String)
deriving DecidableEq

/-- The fields of a JSON-LD object that `extract_event_details` reads;
missing keys default to `""`/`none` exactly as `data.get(key, '')` does. -/
structure LdData where
  atType : String
  name : String := ""
  startDate : String := ""
  endDate : String := ""
  description : String := ""
  organizer : Option OrgData := none
  image : Option ImageVal := none
deriving DecidableEq

inductive Parsed where
  | err
  | nonDict
  | dict (d : LdData)
deriving DecidableEq

structure ScriptTag where
  str : Option String
  parsed : Parsed
deriving DecidableEq

structure DetailSoup where
  scripts : List ScriptTag
  locText : Option String
deriving DecidableEq

/-- The guard `if script.string and '@type' in script.string:`. -/
def scriptGuard (s : ScriptTag) : Bool :=
  match s.str with
  | some raw => raw != "" && containsSubstr raw "@type"
  | none => false

/-- The JSON-LD selection loop of `extract_event_details`: first script
whose guarded parse yields an object of `@type == 'Event'`; a
`JSONDecodeError` is caught and skipped, while `data.get` on a non-object
raises. -/
def pickEventData : List ScriptTag → Except PyErr (Option LdData)
  | [] => Except.ok none
  | s :: rest =>
    if scriptGuard s then
      match s.parsed with
      | Parsed.err => pickEventData rest
      | Parsed.nonDict => Except.error PyErr.attributeError
      | Parsed.dict d =>
        if d.atType = "Event" then Except.ok (some d) else pickEventData rest
    else pickEventData rest

/-! ### ADNEC fetcher: location formatting -/

/-- The character class `[\d\-,\s]` of the hall regex. -/
def hallClassChar (c : Char) : Bool :=
  c.isDigit || c = '-' || c = ',' || isPySpace c

/-- Embeds `re.match(r'^Hall[s]?\s+[\d\-,\s]+$', location, re.IGNORECASE)`:
`Hall` or `Halls` (case-insensitive), at least one whitespace character,
then at least one character, all from `[\d\-,\s]`, up to the end. -/
def hallNumberPattern (s : String) : Bool :=
  match (strToLower s).data with
  | 'h' :: 'a' :: 'l' :: 'l' :: rest =>
    (match (match rest with | 's' :: r => r | r => r) with
     | c :: cs => isPySpace c && !cs.isEmpty && cs.all hallClassChar
     | [] => false)
  | _ => false

/-- Embeds `AdnecEventsFetcher.format_location`. -/
def format_location (location : String) : String :=
  let location := strTrim location
  if hallNumberPattern location then
    "ADNEC (" ++ location ++ ")"
  else if containsSubstr (strToLower location) "hall"
      && !(containsSubstr location "ADNEC") then
    "ADNEC (" ++ location ++ ")"
  else location

/-- Embeds `text.split('\n')` over characters (accumulator holds the current line
reversed). -/
def splitLinesChar : List Char → List Char → List (List Char)
  | [], acc => [acc.reverse]
  | c :: rest, acc =>
    if c = '\n' then acc.reverse :: splitLinesChar rest []
    else splitLinesChar rest (c :: acc)

/-- Embeds `[line.strip() for line in text.split('\n') if line.strip()]`. -/
def cleanLines (t : String) : List String :=
  ((splitLinesChar t.data []).map (fun cs => strTrim (String.mk cs))).filter
    (fun l => l != "")

def isLocLabelLine (line : String) : Bool :=
  containsSubstr line "Location:" || containsSubstr line "الموقع"

/-- The line scan of `extract_event_details`: the first line carrying the
location label whose following line exists and is colon-free yields that
following line; a label line with an invalid successor does not stop the
scan. -/
def findLocLine : List String → Option String
  | [] => none
  | [_] => none
  | l :: next :: rest =>
    if isLocLabelLine l && !(strContainsChar next ':') then some next
    else findLocLine (next :: rest)

/-- The hall/location derivation of `extract_event_details`:
`"ADNEC Centre Abu Dhabi"` unless a label with a valid following line is
found, in which case that line is formatted. -/
def hallLocation (soup : DetailSoup) : String :=
  match soup.locText with
  | none => "ADNEC Centre Abu Dhabi"
  | some t =>
    match findLocLine (cleanLines t) with
    | some raw => format_location raw
    | none => "ADNEC Centre Abu Dhabi"

/-! ### ADNEC fetcher: detail extraction -/

/-- The dictionary returned by `extract_event_details` (all nine keys are
always present — the function never returns a partial record). -/
structure DetailRec where
  title : String
  url : String
  start_date : String
  end_date : String
  location : String
  organizer : String
  organizer_url : String
  description : String
  image_url : String
deriving DecidableEq

/-- The record construction at the end of `extract_event_details`.
`parseIso` models `parse_iso_datetime_to_readable` (the `datetime`
library call; on malformed input the code returns the raw string). -/
def buildDetail (parseIso : String → String) (soup : DetailSoup) (url : String)
    (d : LdData) : DetailRec :=
  { title := d.name
    url := url
    start_date := parseIso d.startDate
    end_date := parseIso d.endDate
    location := hallLocation soup
    organizer := match d.organizer with | some o => o.name | none => ""
    organizer_url := match d.organizer with | some o => o.url | none => ""
    description := d.description
    image_url := match d.image with
      | some (ImageVal.list (x :: _)) => x
      | some (ImageVal.list []) => ""
      | some (ImageVal.str s) => s
      | none => "" }

/-- Embeds `AdnecEventsFetcher.extract_event_details`.  `page` is the fetched and
parsed detail page (`none` when `fetch_page` failed). -/
def extract_event_details (parseIso : String → String) (page : Option DetailSoup)
    (url : String) : Except PyErr (Option DetailRec) :=
  match page with
  | none => Except.ok none
  | some soup =>
    match pickEventData soup.scripts with
    | Except.error e => Except.error e
    | Except.ok none => Except.ok none
    | Except.ok (some d) => Except.ok (some (buildDetail parseIso soup url d))

/-! ### ADNEC fetcher: Selenium fetch and aggregation -/

structure Driver where
  id : Nat
deriving DecidableEq

/-- Embeds `AdnecEventsFetcher.create_driver`: `None` when the Selenium import
failed; otherwise the driver construction (which may raise) runs. -/
def create_driver (seleniumAvailable : Bool) (create : Except PyErr Driver) :
    Except PyErr (Option Driver) :=
  if !seleniumAvailable then Except.ok none
  else
    match create with
    | Except.error e => Except.error e
    | Except.ok d => Except.ok (some d)

/-- Embeds `AdnecEventsFetcher.fetch_page_with_selenium`: the whole page-driving
block sits in `try/except Exception`, so it is modelled by the total
`pageLoad` (returning `none` on a caught error); only driver creation runs
outside the `try`. -/
def fetch_page_with_selenium (seleniumAvailable : Bool)
    (create : Except PyErr Driver) (pageLoad : Driver → Option String) :
    Except PyErr (Option String) :=
  match create_driver seleniumAvailable create with
  | Except.error e => Except.error e
  | Except.ok none => Except.ok none
  | Except.ok (some d) => Except.ok (pageLoad d)

def base_url_en : String := "https://www.adnec.ae/en/eventlisting"
def base_url_ar : String := "https://www.adnec.ae/ar/eventlisting"

/-- The URL-collection loop of `extract_event_urls_from_listing`
(skip the listing pages themselves, resolve, deduplicate keeping first). -/
def collectUrls (base_url : String) : List String → List String → List String
  | [], _ => []
  | href :: rest, seen =>
    if href != "" && href != "/en/eventlisting" && href != "/ar/eventlisting" then
      if urljoin base_url href ∈ seen then collectUrls base_url rest seen
      else urljoin base_url href :: collectUrls base_url rest (urljoin base_url href :: seen)
    else collectUrls base_url rest seen

/-- Embeds `AdnecEventsFetcher.extract_event_urls_from_listing`.  `anchors` models
the page's anchor `href` attributes; the `find_all` filter
(`x and '/eventlisting/' in str(x)`) is applied first. -/
def extract_event_urls_from_listing (anchors : List (Option String))
    (base_url : String) : List String :=
  collectUrls base_url
    (anchors.filterMap (fun h =>
      match h with
      | some href =>
        if containsSubstr href "/eventlisting/" then some href else none
      | none => none))
    []

/-- Remainder after the first occurrence of `sep`, if any. -/
def dropAfterFirst (sep : List Char) : List Char → Option (List Char)
  | [] => none
  | c :: rest =>
    if sep.isPrefixOf (c :: rest) then some ((c :: rest).drop sep.length)
    else dropAfterFirst sep rest

/-- Iterate `dropAfterFirst`; the fuel (`≥` the input length) makes the
recursion structural. -/
def splitLastPieceGo (sep : List Char) : Nat → List Char → List Char
  | 0, cs => cs
  | fuel + 1, cs =>
    match dropAfterFirst sep cs with
    | none => cs
    | some rest => splitLastPieceGo sep fuel rest

/-- Embeds `ar_url.split('/eventlisting/')[-1]`. -/
def slugOf (ar_url : String) : String :=
  String.mk (splitLastPieceGo "/eventlisting/".data ar_url.data.length ar_url.data)

/-- Embeds `f"https://www.adnec.ae/en/eventlisting/{slug}"`. -/
def enEquivalent (ar_url : String) : String :=
  "https://www.adnec.ae/en/eventlisting/" ++ slugOf ar_url

/-- Embeds `url_mapping.get(en_url, '')` for a mapping built by repeated
assignment (the last binding of a key wins). -/
def mappingGet (mapping : List (String × String)) (k : String) : String :=
  match mapping.reverse.find? (fun p => p.1 == k) with
  | some p => p.2
  | none => ""

/-- The `AdnecEvent` dataclass. -/
structure AdnecEvent where
  title : String
  title_ar : String
  url : String
  url_ar : String
  start_date : String
  end_date : String
  location : String
  organizer : String
  description : String
  image_url : String
  organizer_url : String
deriving DecidableEq

def mkAdnecEvent (d : DetailRec) (title_ar en_url ar_url : String) : AdnecEvent :=
  { title := d.title, title_ar := title_ar, url := en_url, url_ar := ar_url,
    start_date := d.start_date, end_date := d.end_date, location := d.location,
    organizer := d.organizer, description := d.description,
    image_url := d.image_url, organizer_url := d.organizer_url }

/-- The per-URL detail loop of `fetch_all_events`: skip when the English
details are absent, otherwise also fetch the mapped Arabic page for its
title and append the combined record. -/
def detailLoop (details : String → Except PyErr (Option DetailRec))
    (mapping : List (String × String)) :
    List String → Except PyErr (List AdnecEvent)
  | [] => Except.ok []
  | u :: rest =>
    match details u with
    | Except.error e => Except.error e
    | Except.ok none => detailLoop details mapping rest
    | Except.ok (some d) =>
      match (if mappingGet mapping u != "" then
          match details (mappingGet mapping u) with
          | Except.error e => Except.error e
          | Except.ok none => Except.ok ""
          | Except.ok (some ad) => Except.ok ad.title
        else Except.ok "") with
      | Except.error e => Except.error e
      | Except.ok title_ar =>
        match detailLoop details mapping rest with
        | Except.error e => Except.error e
        | Except.ok evs =>
          Except.ok (mkAdnecEvent d title_ar u (mappingGet mapping u) :: evs)

/-- Embeds `AdnecEventsFetcher.fetch_all_events`.  `fetchListing` models
`self.fetch_page` on the two listing URLs (absence, a page's anchors, or a
propagated exception); `getDetailPage` models the fetched detail pages. -/
def fetch_all_events (parseIso : String → String)
    (fetchListing : String → Except PyErr (Option (List (Option String))))
    (getDetailPage : String → Option DetailSoup)
    (include_arabic : Bool) : Except PyErr (List AdnecEvent) :=
  match fetchListing base_url_en with
  | Except.error e => Except.error e
  | Except.ok none => Except.ok []
  | Except.ok (some enAnchors) =>
    match (if include_arabic then
        match fetchListing base_url_ar with
        | Except.error e => Except.error e
        | Except.ok none => Except.ok []
        | Except.ok (some arAnchors) =>
          Except.ok ((extract_event_urls_from_listing arAnchors base_url_ar).map
            (fun ar => (enEquivalent ar, ar)))
      else Except.ok ([] : List (String × String))) with
    | Except.error e => Except.error e
    | Except.ok mapping =>
      detailLoop (fun u => extract_event_details parseIso (getDetailPage u) u)
        mapping (extract_event_urls_from_listing enAnchors base_url_en)

/-! ### Claim C9: location-formatter idempotence on a formatted string -/

/-- C9: applying `format_location` to the already-formatted string
`"ADNEC (Hall 3)"` returns it unchanged (the string contains `"hall"` but
also already contains `"ADNEC"`, so no wrapping happens). -/
theorem c9_format_location_fixed :
    format_location "ADNEC (Hall 3)" = "ADNEC (Hall 3)" := by decide

/-! ### Claim C5: detail extraction absence -/

/-- A script block is picked by `extract_event_details` exactly when it
passes the raw-text guard and parses to an object of type `Event`. -/
def scriptSelectable (s : ScriptTag) : Bool :=
  scriptGuard s && (match s.parsed with
    | Parsed.dict d => d.atType == "Event"
    | _ => false)

theorem pickEventData_spec :
    ∀ (l : List ScriptTag),
      (∀ s ∈ l, ¬(scriptGuard s = true ∧ s.parsed = Parsed.nonDict)) →
      (l.find? scriptSelectable = none → pickEventData l = Except.ok none)
      ∧ (∀ s, l.find? scriptSelectable = some s →
          ∃ d, s.parsed = Parsed.dict d ∧ pickEventData l = Except.ok (some d)) := by
  intro l
  induction l with
  | nil =>
    intro _
    exact ⟨fun _ => rfl, fun s h => by simp at h⟩
  | cons s rest ih =>
    intro hnd
    have ihh := ih (fun x hx => hnd x (List.mem_cons_of_mem _ hx))
    by_cases hg : scriptGuard s = true
    · cases hp : s.parsed with
      | err =>
        have hsel : scriptSelectable s = false := by
          simp [scriptSelectable, hp]
        constructor
        · intro hfind
          rw [List.find?_cons, hsel] at hfind
          have h := ihh.1 hfind
          simp [pickEventData, hg, hp, h]
        · intro s' hfind
          rw [List.find?_cons, hsel] at hfind
          obtain ⟨d, hd, hpick⟩ := ihh.2 s' hfind
          exact ⟨d, hd, by simp [pickEventData, hg, hp, hpick]⟩
      | nonDict => exact absurd ⟨hg, hp⟩ (hnd s (List.mem_cons_self _ _))
      | dict d =>
        by_cases hA : d.atType = "Event"
        · have hsel : scriptSelectable s = true := by
            simp [scriptSelectable, hp, hg, hA]
          constructor
          · intro hfind
            rw [List.find?_cons, hsel] at hfind
            simp at hfind
          · intro s' hfind
            rw [List.find?_cons, hsel] at hfind
            have hss : s = s' := by
              simpa using hfind
            subst hss
            exact ⟨d, hp, by simp [pickEventData, hg, hp, hA]⟩
        · have hsel : scriptSelectable s = false := by
            simp [scriptSelectable, hp, hA]
          constructor
          · intro hfind
            rw [List.find?_cons, hsel] at hfind
            have h := ihh.1 hfind
            simp [pickEventData, hg, hp, hA, h]
          · intro s' hfind
            rw [List.find?_cons, hsel] at hfind
            obtain ⟨d', hd', hpick⟩ := ihh.2 s' hfind
            exact ⟨d', hd', by simp [pickEventData, hg, hp, hA, hpick]⟩
    · have hg' : scriptGuard s = false := by
        simpa using hg
      have hsel : scriptSelectable s = false := by
        simp [scriptSelectable, hg']
      constructor
      · intro hfind
        rw [List.find?_cons, hsel] at hfind
        have h := ihh.1 hfind
        simp [pickEventData, hg', h]
      · intro s' hfind
        rw [List.find?_cons, hsel] at hfind
        obtain ⟨d, hd, hpick⟩ := ihh.2 s' hfind
        exact ⟨d, hd, by simp [pickEventData, hg', hpick]⟩

/-- A detail page whose only structured-data block writes the `@type` key
with a JSON unicode escape (`\u0040`): the raw text does not contain the
literal `'@type'`, yet `json.loads` yields an object of type `Event`. -/
def c5EscapedSoup : DetailSoup :=
  { scripts := [{ str := some "\x7b\"\\u0040type\": \"Event\"\x7d",
                  parsed := Parsed.dict { atType := "Event", name := "Expo" } }],
    locText := none }

/-- C5 (counterexample to the claim as stated): on `c5EscapedSoup` the
extraction returns absence although a structured-data block parses to data
whose declared type is `"Event"` — the code's `'@type' in script.string`
pre-check skips the block, so absence is *not* equivalent to "no block
parses to type Event". -/
theorem c5_claim_counterexample :
    extract_event_details (fun s => s) (some c5EscapedSoup) "https://u"
        = Except.ok none
    ∧ c5EscapedSoup.scripts.any (fun s =>
        match s.parsed with
        | Parsed.dict d => d.atType == "Event"
        | _ => false) = true := by
  exact ⟨by decide, by decide⟩

/-- C5 (amended): for a successfully fetched detail page none of whose
guarded blocks parses to a non-object, detail extraction returns absence
exactly when no block both contains the literal `'@type'` in its raw text
and parses to an object of declared type `"Event"`; when such blocks exist
the first one is used (and the full record built from it is returned —
never a partial record); and the aggregator's detail loop skips an absent
item and continues with the remaining items. -/
theorem c5_detail_absence (parseIso : String → String) (soup : DetailSoup)
    (url : String)
    (hnd : ∀ s ∈ soup.scripts, ¬(scriptGuard s = true ∧ s.parsed = Parsed.nonDict)) :
    (extract_event_details parseIso (some soup) url = Except.ok none
      ↔ soup.scripts.find? scriptSelectable = none)
    ∧ (∀ s d, soup.scripts.find? scriptSelectable = some s →
        s.parsed = Parsed.dict d →
        extract_event_details parseIso (some soup) url
          = Except.ok (some (buildDetail parseIso soup url d)))
    ∧ (∀ (details : String → Except PyErr (Option DetailRec))
        (mapping : List (String × String)) (u : String) (rest : List String),
        details u = Except.ok none →
        detailLoop details mapping (u :: rest) = detailLoop details mapping rest) := by
  have hspec := pickEventData_spec soup.scripts hnd
  refine ⟨⟨?_, ?_⟩, ?_, ?_⟩
  · intro hex
    cases hfind : soup.scripts.find? scriptSelectable with
    | none => rfl
    | some s =>
      obtain ⟨d, hd, hpick⟩ := hspec.2 s hfind
      simp [extract_event_details, hpick] at hex
  · intro hfind
    have h := hspec.1 hfind
    simp [extract_event_details, h]
  · intro s d hfind hd
    obtain ⟨d', hd', hpick⟩ := hspec.2 s hfind
    have hdd : d' = d := by
      rw [hd] at hd'
      simpa using hd'.symm
    subst hdd
    simp [extract_event_details, hpick]
  · intro details mapping u rest h
    simp [detailLoop, h]

/-- A detail page whose only structured-data block is a plain `Event`
object (raw text contains the literal `'@type'`). -/
def c5GoodSoup : DetailSoup :=
  { scripts := [{ str := some "\x7b\"@type\": \"Event\"\x7d",
                  parsed := Parsed.dict { atType := "Event", name := "Expo" } }],
    locText := none }

theorem c5_detail_absence_witness :
    extract_event_details (fun s => s) (some c5GoodSoup) "https://u"
      = Except.ok (some (buildDetail (fun s => s) c5GoodSoup "https://u"
          { atType := "Event", name := "Expo" })) :=
  (c5_detail_absence (fun s => s) c5GoodSoup "https://u" (by decide)).2.1
    { str := some "\x7b\"@type\": \"Event\"\x7d",
      parsed := Parsed.dict { atType := "Event", name := "Expo" } }
    { atType := "Event", name := "Expo" } (by decide) rfl

/-! ### Claim C6: hall-location formatting -/

theorem format_location_spec (raw : String) :
    format_location raw
      = (if (hallNumberPattern (strTrim raw) = true)
            ∨ (containsSubstr (strToLower (strTrim raw)) "hall" = true
               ∧ containsSubstr (strTrim raw) "ADNEC" = false)
         then "ADNEC (" ++ strTrim raw ++ ")"
         else strTrim raw) := by
  unfold format_location
  cases h1 : hallNumberPattern (strTrim raw) with
  | true => simp [h1]
  | false =>
    cases h2 : containsSubstr (strToLower (strTrim raw)) "hall" with
    | true =>
      cases h3 : containsSubstr (strTrim raw) "ADNEC" with
      | true => simp [h1, h2, h3]
      | false => simp [h1, h2, h3]
    | false => simp [h1, h2]

/-- A detail page with a valid `Event` block and a Location label whose
following line is `"Blue Room"` — a location that is neither a hall
pattern nor contains the word "hall". -/
def c6Soup : DetailSoup :=
  { scripts := [{ str := some "\x7b\"@type\": \"Event\"\x7d",
                  parsed := Parsed.dict { atType := "Event", name := "Expo" } }],
    locText := some "Location:\nBlue Room" }

/-- C6 (counterexample to the claim as stated): when the raw location
string matches neither hall condition, the record's location is the raw
string itself (`"Blue Room"`), not the venue's generic name
`"ADNEC Centre Abu Dhabi"` as the claim's otherwise-branch states. -/
theorem c6_claim_counterexample :
    extract_event_details (fun s => s) (some c6Soup) "https://u"
        = Except.ok (some (buildDetail (fun s => s) c6Soup "https://u"
            { atType := "Event", name := "Expo" }))
    ∧ (buildDetail (fun s => s) c6Soup "https://u"
        { atType := "Event", name := "Expo" }).location = "Blue Room"
    ∧ "Blue Room" ≠ "ADNEC Centre Abu Dhabi" :=
  ⟨by decide, by decide, by decide⟩

/-- C6 (amended): for every detail page that yields a record and where a
Location label is found with a following non-empty colon-free line `raw`,
the record's location is: `"ADNEC (<raw'>)"` (with `raw'` the stripped raw
string) when `raw'` matches the hall-number pattern or contains the word
"hall" without already containing `"ADNEC"`; otherwise the stripped raw
string itself.  (The generic name `"ADNEC Centre Abu Dhabi"` is used only
when no such label/line is found.) -/
theorem c6_location_format (parseIso : String → String) (soup : DetailSoup)
    (url : String) (d : LdData) (t raw : String)
    (hpick : pickEventData soup.scripts = Except.ok (some d))
    (ht : soup.locText = some t)
    (hline : findLocLine (cleanLines t) = some raw) :
    extract_event_details parseIso (some soup) url
        = Except.ok (some (buildDetail parseIso soup url d))
    ∧ (buildDetail parseIso soup url d).location
        = (if (hallNumberPattern (strTrim raw) = true)
              ∨ (containsSubstr (strToLower (strTrim raw)) "hall" = true
                 ∧ containsSubstr (strTrim raw) "ADNEC" = false)
           then "ADNEC (" ++ strTrim raw ++ ")"
           else strTrim raw) := by
  constructor
  · simp [extract_event_details, hpick]
  · have hloc : (buildDetail parseIso soup url d).location = hallLocation soup := rfl
    rw [hloc]
    simp only [hallLocation, ht, hline]
    exact format_location_spec raw

/-- A detail page whose Location line is `"Hall 3"`. -/
def c6HallSoup : DetailSoup :=
  { scripts := [{ str := some "\x7b\"@type\": \"Event\"\x7d",
                  parsed := Parsed.dict { atType := "Event", name := "Expo" } }],
    locText := some "Location:\nHall 3" }

theorem c6_location_format_witness :
    (buildDetail (fun s => s) c6HallSoup "https://u"
        { atType := "Event", name := "Expo" }).location
      = (if (hallNumberPattern (strTrim "Hall 3") = true)
            ∨ (containsSubstr (strToLower (strTrim "Hall 3")) "hall" = true
               ∧ containsSubstr (strTrim "Hall 3") "ADNEC" = false)
         then "ADNEC (" ++ strTrim "Hall 3" ++ ")"
         else strTrim "Hall 3")
    ∧ (buildDetail (fun s => s) c6HallSoup "https://u"
        { atType := "Event", name := "Expo" }).location = "ADNEC (Hall 3)" :=
  ⟨(c6_location_format (fun s => s) c6HallSoup "https://u"
      { atType := "Event", name := "Expo" } "Location:\nHall 3" "Hall 3"
      (by decide) rfl (by decide)).2, by decide⟩

/-! ### Claim C8: browser-creation failure -/

/-- C8 (counterexample to the claim as stated): when driver creation
*raises* (the browser cannot be created at runtime), the exception
propagates out of `fetch_page_with_selenium` — the listing fetch does not
return absence. -/
theorem c8_claim_counterexample :
    fetch_page_with_selenium true (Except.error PyErr.driverError) (fun _ => none)
        = Except.error PyErr.driverError
    ∧ fetch_page_with_selenium true (Except.error PyErr.driverError) (fun _ => none)
        ≠ Except.ok none :=
  ⟨by decide, by decide⟩

/-- C8 (amended): when driver creation reports no driver *without raising*
(the Selenium library is unavailable), the browser-rendered listing fetch
returns absence; and when the English listing fetch is absent, the
aggregator returns an empty event list rather than raising.  A runtime
exception during driver creation, by contrast, propagates. -/
theorem c8_browser_unavailable_absence
    (seleniumAvailable : Bool) (create : Except PyErr Driver)
    (pageLoad : Driver → Option String) (parseIso : String → String)
    (fetchListing : String → Except PyErr (Option (List (Option String))))
    (getDetailPage : String → Option DetailSoup) (include_arabic : Bool)
    (hdrv : create_driver seleniumAvailable create = Except.ok none)
    (hlist : fetchListing base_url_en = Except.ok none) :
    fetch_page_with_selenium seleniumAvailable create pageLoad = Except.ok none
    ∧ fetch_all_events parseIso fetchListing getDetailPage include_arabic
        = Except.ok [] := by
  constructor
  · unfold fetch_page_with_selenium
    rw [hdrv]
  · unfold fetch_all_events
    rw [hlist]

theorem c8_browser_unavailable_absence_witness :
    fetch_page_with_selenium false (Except.error PyErr.driverError) (fun _ => none)
        = Except.ok none
    ∧ fetch_all_events (fun s => s) (fun _ => Except.ok none) (fun _ => none) true
        = Except.ok [] :=
  c8_browser_unavailable_absence false (Except.error PyErr.driverError)
    (fun _ => none) (fun s => s) (fun _ => Except.ok none) (fun _ => none) true
    (by decide) rfl

end EventScrapers
